import Mathlib

/-!
Verification development for the `signature-shape` repository
(`src/src/routes/+page.svelte`), a single-view typing toy that draws a
polyline between the screen positions of consecutively typed letters and
can export the drawing as SVG or PNG.

Modelling conventions (shallow embedding of the TypeScript source):
* JavaScript strings are Lean `String`s; the string operations the source
  uses (`toUpperCase`, `toLowerCase`, `endsWith(' ')`, `slice(0, -1)`,
  `s[s.length - 1]`) are modelled at the character-list level.
* JavaScript numbers that carry state (opacity, coordinates, widths) are
  modelled as `ℚ`; no floating point arithmetic is ever performed on them
  by the source, they are only stored and compared.
* `setTimeout`/`clearTimeout` timers are modelled as optional absolute
  deadlines (milliseconds); `advanceTo` fires the due callbacks of a state
  in deadline order, which is adequate for runs with no further user
  events (the situations the temporal claims quantify over).
* The key-position registry `keyPositions : Record<string, KeyPosition>`
  is modelled as a function `String → Option KeyPosition` (a missing
  record entry reads as `undefined`, i.e. `none`).
* Canvas 2D context calls and the generated SVG document are reified as
  inductive command lists / a document structure, so that the drawing and
  export output of a state is a first-class value.
* DOM-only concerns (element lookup in `calculateKeyPositions`, CSS,
  the 10ms layout-settling `setTimeout` before redraws, blob download
  plumbing) are outside the embedded core, as in the specification.
-/

namespace SignatureShape

/-- Screen-space coordinates of a key's center (`interface KeyPosition`). -/
structure KeyPosition where
  x : ℚ
  y : ℚ
deriving DecidableEq

/-- Line style options (`LineSettings.style : 'solid' | 'dashed' | 'dotted'`). -/
inductive LineStyle where
  | solid
  | dashed
  | dotted
deriving DecidableEq

/-- Line appearance settings (`interface LineSettings`). -/
structure LineSettings where
  color : String
  width : ℚ
  style : LineStyle
  glow : Bool
  dotSize : ℚ
deriving DecidableEq

/-- The initial `settings.lines` value from the source's `$state` literal. -/
def defaultLines : LineSettings :=
  { color := "#ffffff", width := 4, style := LineStyle.solid,
    glow := true, dotSize := 5 }

/-- The drawing surface: only its dimensions matter to the embedded core
(`canvas.width`, `canvas.height`). -/
structure Canvas where
  width : ℚ
  height : ℚ
deriving DecidableEq

/-- The mutable typing/fade state of the component: `typedSequence`,
`currentText`, `keyboardOpacity`, `showExportButtons`, `isHovering`, and
the two timers (`fadeTimeout`, `exportTimeout`) as optional absolute
deadlines in milliseconds. -/
structure AppState where
  typedSequence : List String
  currentText : String
  keyboardOpacity : ℚ
  showExportButtons : Bool
  isHovering : Bool
  fadeTimeout : Option Nat
  exportTimeout : Option Nat
deriving DecidableEq

/-- Initial state of the component's variables. -/
def initState : AppState :=
  { typedSequence := [], currentText := "", keyboardOpacity := 1,
    showExportButtons := false, isHovering := false,
    fadeTimeout := none, exportTimeout := none }

/-- JavaScript `String.prototype.toUpperCase` (character-wise ASCII case map,
which is all the source's inputs exercise). -/
def strToUpper (s : String) : String :=
  ⟨s.data.map Char.toUpper⟩

/-- JavaScript `String.prototype.toLowerCase`. -/
def strToLower (s : String) : String :=
  ⟨s.data.map Char.toLower⟩

/-- The test `key.match(/^[A-Z]$/)` applied to the uppercased key string:
exactly one character, in the range `A`–`Z`. -/
def isSingleUpperLetter (k : String) : Bool :=
  match k.data with
  | [c] => 'A' ≤ c && c ≤ 'Z'
  | _ => false

/-- JavaScript `currentText.endsWith(' ')`: the last character is a space. -/
def endsWithSpace (s : String) : Bool :=
  s.data.getLast? = some ' '

/-- `startFadeTimer()`: schedules the fade callback 2000ms from now.  The
export callback is only scheduled when the fade callback fires, see
`fadeTimerFire`. -/
def startFadeTimer (s : AppState) (now : Nat) : AppState :=
  { s with fadeTimeout := some (now + 2000) }

/-- `addLetter(letter)`: append the lowercased letter to `currentText`,
push the letter onto `typedSequence`, cancel both timers, show the
keyboard, hide the export buttons, and restart the fade timer.  (The
10ms-deferred `calculateKeyPositions(); redrawLines()` is presentation:
drawing is modelled as the pure function `redrawLines` of a state.) -/
def addLetter (s : AppState) (letter : String) (now : Nat) : AppState :=
  let s' := { s with
    currentText := s.currentText ++ strToLower letter,
    typedSequence := s.typedSequence ++ [letter],
    fadeTimeout := none,
    exportTimeout := none,
    keyboardOpacity := 1,
    showExportButtons := false }
  startFadeTimer s' now

/-- `addSpace()`: only when `currentText` is non-empty and does not already
end with a space, append a space (to the display text only), reset the
timers and restart the fade countdown; otherwise a no-op. -/
def addSpace (s : AppState) (now : Nat) : AppState :=
  if s.currentText.length > 0 && !endsWithSpace s.currentText then
    let s' := { s with
      currentText := s.currentText ++ " ",
      fadeTimeout := none,
      exportTimeout := none,
      keyboardOpacity := 1,
      showExportButtons := false }
    startFadeTimer s' now
  else s

/-- `removeLetter()`: when `currentText` is non-empty, drop its last
character; when that character is a letter (`/[a-z]/i`, i.e. an ASCII
letter), also pop `typedSequence`.  Timers are reset, and the fade
countdown restarts only when text remains.  (`currentText[length - 1]` is
the last character; `getLastD`'s default is never consulted under the
length guard.) -/
def removeLetter (s : AppState) (now : Nat) : AppState :=
  if s.currentText.length > 0 then
    let s' := { s with
      currentText := (⟨s.currentText.data.dropLast⟩ : String),
      typedSequence :=
        if (s.currentText.data.getLastD ' ').isAlpha
        then s.typedSequence.dropLast else s.typedSequence,
      fadeTimeout := none,
      exportTimeout := none,
      keyboardOpacity := 1,
      showExportButtons := false }
    if (⟨s.currentText.data.dropLast⟩ : String).length > 0
    then startFadeTimer s' now else s'
  else s

/-- `confirmTyping()`: cancel both timers, fade the keyboard to opacity
0.1 and show the export buttons.  Text and sequence are untouched. -/
def confirmTyping (s : AppState) : AppState :=
  { s with
    fadeTimeout := none,
    exportTimeout := none,
    keyboardOpacity := 1 / 10,
    showExportButtons := true }

/-- `handleMouseEnter()`: suppress auto-fade while hovering. -/
def handleMouseEnter (s : AppState) : AppState :=
  { s with
    isHovering := true,
    fadeTimeout := none,
    exportTimeout := none,
    keyboardOpacity := 1,
    showExportButtons := false }

/-- `handleMouseLeave()`: restart the fade countdown when there is typed
content. -/
def handleMouseLeave (s : AppState) (now : Nat) : AppState :=
  let s' := { s with isHovering := false }
  if s'.typedSequence.length > 0 then startFadeTimer s' now else s'

/-- `clearCanvas()`: reset sequence, text, export buttons and opacity, and
cancel both timers.  (The `ctx.clearRect` call is the drawing surface's
concern; drawing output is modelled as the pure `redrawLines`.) -/
def clearCanvas (s : AppState) : AppState :=
  { s with
    typedSequence := [],
    currentText := "",
    showExportButtons := false,
    keyboardOpacity := 1,
    fadeTimeout := none,
    exportTimeout := none }

/-- `handleKeyPress(event)`: uppercase `event.key`, then route single
letters to `addLetter`, `" "` to `addSpace`, `"BACKSPACE"` to
`removeLetter`, `"ENTER"` to `confirmTyping`; every other key is ignored. -/
def handleKeyPress (s : AppState) (eventKey : String) (now : Nat) : AppState :=
  let key := strToUpper eventKey
  if isSingleUpperLetter key then addLetter s key now
  else if key = " " then addSpace s now
  else if key = "BACKSPACE" then removeLetter s now
  else if key = "ENTER" then confirmTyping s
  else s

/-- The body of the `setTimeout` callback scheduled by `startFadeTimer`,
fired at absolute time `firedAt`: when not hovering, set opacity to 0.3
and schedule the export-button callback 1000ms later. -/
def fadeTimerFire (s : AppState) (firedAt : Nat) : AppState :=
  if s.isHovering then { s with fadeTimeout := none }
  else { s with
    keyboardOpacity := 3 / 10,
    fadeTimeout := none,
    exportTimeout := some (firedAt + 1000) }

/-- The body of the nested export-button `setTimeout` callback: when not
hovering and the opacity is still 0.3, show the export buttons. -/
def exportTimerFire (s : AppState) : AppState :=
  if s.isHovering = false ∧ s.keyboardOpacity = 3 / 10 then
    { s with showExportButtons := true, exportTimeout := none }
  else { s with exportTimeout := none }

/-- Runs the single-threaded timer queue up to (and including) time `t`
for an execution with no further user events: the pending fade callback
fires at its deadline when due, then the export callback it scheduled
(or a pending one) fires when due. -/
def advanceTo (s : AppState) (t : Nat) : AppState :=
  let s1 := match s.fadeTimeout with
    | some d => if d ≤ t then fadeTimerFire s d else s
    | none => s
  match s1.exportTimeout with
  | some d => if d ≤ t then exportTimerFire s1 else s1
  | none => s1

/-- The fade machine's observable at time `t`: keyboard opacity and
export-button visibility after the timers due by `t` have fired. -/
def fadeObs (s : AppState) (t : Nat) : ℚ × Bool :=
  ((advanceTo s t).keyboardOpacity, (advanceTo s t).showExportButtons)

/-- The spec's fade timeline for a state `s` freshly armed by a mutating
event at time 0: `Active` (opacity 1, export hidden) on `[0, 2000)`,
`Fading` (opacity 0.3, export hidden) on `[2000, 3000)`, `Revealed`
(opacity 0.3, export visible) from 3000 on. -/
def fadePhases (s : AppState) (t : Nat) : Prop :=
  (t < 2000 → fadeObs s t = (1, false)) ∧
  (2000 ≤ t → t < 3000 → fadeObs s t = (3 / 10, false)) ∧
  (3000 ≤ t → fadeObs s t = (3 / 10, true))

/-- Reified calls on the canvas 2D context made by `redrawLines`. -/
inductive CanvasOp where
  | clearRect (x y w h : ℚ)
  | setStrokeStyle (color : String)
  | setLineWidth (w : ℚ)
  | setLineCap (cap : String)
  | setShadowColor (color : String)
  | setShadowBlur (b : ℚ)
  | setLineDash (pattern : List ℚ)
  | beginPath
  | moveTo (x y : ℚ)
  | lineTo (x y : ℚ)
  | stroke
deriving DecidableEq

/-- Iterations `i ≥ 1` of the segment loop in `redrawLines`: for the pair
(`a`, `b`) at positions `i`, `i+1`, when both endpoints resolve, emit
`ctx.lineTo(nextPos)`; otherwise emit nothing and continue. -/
def segOpsRest (pos : String → Option KeyPosition) :
    String → List String → List CanvasOp
  | _, [] => []
  | a, b :: rest =>
    (match pos a, pos b with
     | some _, some q => [CanvasOp.lineTo q.x q.y]
     | _, _ => []) ++ segOpsRest pos b rest

/-- The whole segment loop of `redrawLines`: iteration `i = 0`
additionally emits `ctx.moveTo(currentPos)` — but only when that first
pair resolves, since the `i === 0` test sits inside the resolution
guard. -/
def segOps (pos : String → Option KeyPosition) :
    List String → List CanvasOp
  | a :: b :: rest =>
    (match pos a, pos b with
     | some p, some q => [CanvasOp.moveTo p.x p.y, CanvasOp.lineTo q.x q.y]
     | _, _ => []) ++ segOpsRest pos b rest
  | _ => []

/-- `redrawLines()`: `none` when the context or the canvas is unavailable;
otherwise the exact list of context calls made: clear, then (when the
sequence is non-empty) the style setup, then (when it has at least two
entries) the polyline path. -/
def redrawLines (ctx : Option Unit) (canvas : Option Canvas)
    (seq : List String) (pos : String → Option KeyPosition)
    (lines : LineSettings) : Option (List CanvasOp) :=
  match ctx, canvas with
  | some _, some cv =>
    some ([CanvasOp.clearRect 0 0 cv.width cv.height] ++
      (if seq.length = 0 then [] else
        [CanvasOp.setStrokeStyle lines.color,
         CanvasOp.setLineWidth lines.width,
         CanvasOp.setLineCap "round"] ++
        (if lines.glow then
          [CanvasOp.setShadowColor lines.color, CanvasOp.setShadowBlur 10]
         else [CanvasOp.setShadowBlur 0]) ++
        [CanvasOp.setLineDash
          (match lines.style with
           | LineStyle.dashed => [10, 5]
           | LineStyle.dotted => [2, 8]
           | LineStyle.solid => [])] ++
        (if 2 ≤ seq.length then
          [CanvasOp.beginPath] ++ segOps pos seq ++ [CanvasOp.stroke]
         else [])))
  | _, _ => none

/-- A command of an SVG path `d` attribute: `M x y` or `L x y`. -/
inductive SvgPathCmd where
  | M (x y : ℚ)
  | L (x y : ℚ)
deriving DecidableEq

/-- Iterations `i ≥ 1` of the path-data loop in `exportAsSVG` (textually
the same loop as in `redrawLines`). -/
def svgPathRest (pos : String → Option KeyPosition) :
    String → List String → List SvgPathCmd
  | _, [] => []
  | a, b :: rest =>
    (match pos a, pos b with
     | some _, some q => [SvgPathCmd.L q.x q.y]
     | _, _ => []) ++ svgPathRest pos b rest

/-- The path-data loop of `exportAsSVG`: `M` is prepended only in the
`i = 0` iteration, inside the resolution guard. -/
def svgPathData (pos : String → Option KeyPosition) :
    List String → List SvgPathCmd
  | a :: b :: rest =>
    (match pos a, pos b with
     | some p, some q => [SvgPathCmd.M p.x p.y, SvgPathCmd.L q.x q.y]
     | _, _ => []) ++ svgPathRest pos b rest
  | _ => []

/-- A marker circle element of the SVG export. -/
structure SvgCircle where
  cx : ℚ
  cy : ℚ
  r : ℚ
  fill : String
  glowFilter : Bool
deriving DecidableEq

/-- The SVG document produced by `exportAsSVG`, reified structurally:
dimensions (`canvas?.width/height`, absent when the canvas is
unavailable), the optional glow `<defs>`, the single `<path>` with its
styling, the marker `<circle>`s, and the download filename. -/
structure SvgDoc where
  width : Option ℚ
  height : Option ℚ
  glowDefs : Bool
  pathD : List SvgPathCmd
  stroke : String
  strokeWidth : ℚ
  dasharray : String
  pathGlowFilter : Bool
  circles : List SvgCircle
  filename : String
deriving DecidableEq

/-- JavaScript `text.replace(/\s+/g, '-')`: every maximal run of
whitespace becomes a single hyphen. -/
def collapseWs : List Char → List Char
  | [] => []
  | c :: rest =>
    if c.isWhitespace then '-' :: collapseWs (rest.dropWhile Char.isWhitespace)
    else c :: collapseWs rest
termination_by l => l.length
decreasing_by
  · exact Nat.lt_succ_of_le (List.dropWhile_suffix _).length_le
  · exact Nat.lt_succ_of_le (Nat.le_refl _)

/-- The export filename stem: `typing-pattern-` followed by the display
text with whitespace runs collapsed to hyphens. -/
def exportFilename (currentText : String) (ext : String) : String :=
  "typing-pattern-" ++ (⟨collapseWs currentText.data⟩ : String) ++ ext

/-- `exportAsSVG()`: a no-op (`none`) exactly when `typedSequence.length
< 2`; otherwise the produced document.  Note the source checks only the
sequence length — canvas availability only affects the recorded
dimensions (`canvas?.width`). -/
def exportAsSVG (canvas : Option Canvas) (seq : List String)
    (pos : String → Option KeyPosition) (lines : LineSettings)
    (currentText : String) : Option SvgDoc :=
  if seq.length < 2 then none
  else some
    { width := canvas.map Canvas.width,
      height := canvas.map Canvas.height,
      glowDefs := lines.glow,
      pathD := svgPathData pos seq,
      stroke := lines.color,
      strokeWidth := lines.width,
      dasharray :=
        (match lines.style with
         | LineStyle.dashed => "10,5"
         | LineStyle.dotted => "2,8"
         | LineStyle.solid => "none"),
      pathGlowFilter := lines.glow,
      circles := seq.filterMap (fun l =>
        (pos l).map (fun p =>
          { cx := p.x, cy := p.y, r := lines.dotSize,
            fill := lines.color, glowFilter := lines.glow })),
      filename := exportFilename currentText ".svg" }

/-- The PNG download: a snapshot of the canvas plus the filename. -/
structure PngFile where
  filename : String
deriving DecidableEq

/-- `exportAsPNG()`: a no-op (`none`) exactly when the canvas is
unavailable; otherwise the produced raster file.  The drawing context is
not consulted. -/
def exportAsPNG (canvas : Option Canvas) (currentText : String) :
    Option PngFile :=
  match canvas with
  | none => none
  | some _ => some { filename := exportFilename currentText ".png" }

/-- Modelled from the spec (for comparison with `svgPathData`): "move-to
first resolvable point, line-to each subsequent resolvable point" — the
path a reader of the spec expects, beginning at the first position of a
sequence member that resolves in the registry. -/
def specPathData (pos : String → Option KeyPosition) (seq : List String) :
    List SvgPathCmd :=
  match seq.filterMap pos with
  | [] => []
  | p :: rest => SvgPathCmd.M p.x p.y :: rest.map (fun q => SvgPathCmd.L q.x q.y)

/-- The consecutive pairs of the sequence whose two endpoints both
resolve in the registry, with their positions. -/
def consecResolved (pos : String → Option KeyPosition) :
    List String → List (KeyPosition × KeyPosition)
  | a :: b :: rest =>
    (match pos a, pos b with
     | some p, some q => [(p, q)]
     | _, _ => []) ++ consecResolved pos (b :: rest)
  | _ => []

/-- The move-to actually emitted by the source loops: present exactly when
the first consecutive pair fully resolves, at the position of the first
sequence entry. -/
def headMove (pos : String → Option KeyPosition) :
    List String → List SvgPathCmd
  | a :: b :: _ =>
    (match pos a, pos b with
     | some p, some _ => [SvgPathCmd.M p.x p.y]
     | _, _ => [])
  | _ => []

/-- Relates the SVG path commands to the canvas context calls. -/
def cmdToOp : SvgPathCmd → CanvasOp
  | SvgPathCmd.M x y => CanvasOp.moveTo x y
  | SvgPathCmd.L x y => CanvasOp.lineTo x y

/-- The number of `L` (line) commands in a path. -/
def countLineCmds (cmds : List SvgPathCmd) : Nat :=
  cmds.countP (fun c => match c with
    | SvgPathCmd.L _ _ => true
    | _ => false)

/-- A user-facing event of the component: a keyboard event (with its
absolute time) or the clear action. -/
inductive UserEvent where
  | keydown (key : String) (now : Nat)
  | clear

/-- Applies one user event to the state. -/
def applyEvent (s : AppState) : UserEvent → AppState
  | UserEvent.keydown k t => handleKeyPress s k t
  | UserEvent.clear => clearCanvas s

/-- Replays a list of user events from the initial state. -/
def runEvents (evs : List UserEvent) : AppState :=
  evs.foldl applyEvent initState

/-- Replays a list of raw keyboard events (key string and time) from a
state through `handleKeyPress`. -/
def replayKeys (s : AppState) (evs : List (String × Nat)) : AppState :=
  evs.foldl (fun st e => handleKeyPress st e.1 e.2) s

/-- The ordered list of non-space characters of the display text,
canonicalized to uppercase, as single-character key strings — the value
`typedSequence` is claimed to track. -/
def seqOfText (text : String) : List String :=
  (text.data.filter (fun c => c ≠ ' ')).map
    (fun c => (⟨[c.toUpper]⟩ : String))

/-- Well-formed display text: every character is a space or a lowercase
ASCII letter (what the reachable states produce). -/
def textWF (text : String) : Prop :=
  ∀ c ∈ text.data, c = ' ' ∨ ('a' ≤ c ∧ c ≤ 'z')

/-- No two adjacent characters are both spaces. -/
def noDoubleSpace : List Char → Bool
  | a :: b :: rest => !(a = ' ' && b = ' ') && noDoubleSpace (b :: rest)
  | _ => true

/-- The first character, when present, is not a space. -/
def headNotSpace : List Char → Bool
  | [] => true
  | c :: _ => !(c = ' ')

/-- The display text neither starts with a space nor contains two
consecutive spaces. -/
def spacesOK (text : String) : Bool :=
  headNotSpace text.data && noDoubleSpace text.data

/-- A concrete registry resolving only `B` and `C` (as after a partial
layout recalculation). -/
def posBC : String → Option KeyPosition := fun k =>
  if k = "B" then some { x := 0, y := 0 }
  else if k = "C" then some { x := 1, y := 1 }
  else none

/-- A concrete registry resolving `A` and `B`. -/
def posAB : String → Option KeyPosition := fun k =>
  if k = "A" then some { x := 2, y := 3 }
  else if k = "B" then some { x := 4, y := 5 }
  else none

/-- The reachable-state invariant relating the display text and the typed
sequence: the text consists of spaces and lowercase ASCII letters, the
sequence is exactly its non-space characters uppercased, and the text has
no leading or consecutive spaces. -/
def StateInv (s : AppState) : Prop :=
  textWF s.currentText ∧
  s.typedSequence = seqOfText s.currentText ∧
  spacesOK s.currentText = true

/-! ### Helper lemmas: ASCII case mapping and strings -/

theorem char_le_iff {a b : Char} : a ≤ b ↔ a.toNat ≤ b.toNat := Iff.rfl

theorem char_ofNat_upper_facts (n : Nat) (h1 : 65 ≤ n) (h2 : n ≤ 90) :
    (Char.ofNat n).toLower.toUpper = Char.ofNat n ∧
    'a' ≤ (Char.ofNat n).toLower ∧ (Char.ofNat n).toLower ≤ 'z' := by
  interval_cases n <;> decide

theorem char_ofNat_lower_upper (n : Nat) (h1 : 97 ≤ n) (h2 : n ≤ 122) :
    (Char.ofNat n).toUpper.toLower = (Char.ofNat n).toLower := by
  interval_cases n <;> decide

theorem toUpper_eq_self_of_not_lower (c : Char)
    (h : ¬(97 ≤ c.toNat ∧ c.toNat ≤ 122)) : c.toUpper = c := by
  show (if c.toNat ≥ 97 ∧ c.toNat ≤ 122 then Char.ofNat (c.toNat - 32) else c) = c
  rw [if_neg h]

theorem toLower_toUpper_eq_toLower (c : Char) :
    c.toUpper.toLower = c.toLower := by
  by_cases h : 97 ≤ c.toNat ∧ c.toNat ≤ 122
  · have := char_ofNat_lower_upper c.toNat h.1 h.2
    rwa [Char.ofNat_toNat] at this
  · rw [toUpper_eq_self_of_not_lower c h]

theorem upper_char_facts (c : Char) (h1 : 'A' ≤ c) (h2 : c ≤ 'Z') :
    c.toLower.toUpper = c ∧ 'a' ≤ c.toLower ∧ c.toLower ≤ 'z' := by
  have h1' : 65 ≤ c.toNat := char_le_iff.mp h1
  have h2' : c.toNat ≤ 90 := char_le_iff.mp h2
  have := char_ofNat_upper_facts c.toNat h1' h2'
  rwa [Char.ofNat_toNat] at this

theorem lower_char_isAlpha (c : Char) (h1 : 'a' ≤ c) (h2 : c ≤ 'z') :
    c.isAlpha = true := by
  have h1' : 97 ≤ c.toNat := char_le_iff.mp h1
  have h2' : c.toNat ≤ 122 := char_le_iff.mp h2
  have hc := Char.ofNat_toNat c
  rw [← hc]
  generalize c.toNat = n at h1' h2'
  interval_cases n <;> decide

theorem lower_char_ne_space (c : Char) (h1 : 'a' ≤ c) (_h2 : c ≤ 'z') :
    c ≠ ' ' := by
  intro h
  rw [h] at h1
  exact absurd (char_le_iff.mp h1) (by decide)

theorem str_append_assoc (a b c : String) : a ++ b ++ c = a ++ (b ++ c) :=
  congrArg String.mk (List.append_assoc a.data b.data c.data)

theorem str_join_cons (a : String) (l : List String) :
    String.join (a :: l) = a ++ String.join l := by
  rw [String.join_eq, String.join_eq]
  exact congrArg String.mk (by simp)

theorem str_length_concat (a : String) (x : Char) :
    (a ++ (⟨[x]⟩ : String)).length = a.length + 1 := by
  show (a.data ++ [x]).length = a.data.length + 1
  simp

theorem str_concat_getLast (a : String) (x : Char) :
    (a ++ (⟨[x]⟩ : String)).data.getLast? = some x := by
  show (a.data ++ [x]).getLast? = some x
  exact List.getLast?_concat _

theorem str_concat_dropLast (a : String) (x : Char) :
    (a ++ (⟨[x]⟩ : String)).data.dropLast = a.data := by
  show (a.data ++ [x]).dropLast = a.data
  exact List.dropLast_concat

theorem removeLetter_concat (s : AppState) (now : Nat) (l : List Char)
    (c : Char) (hdata : s.currentText.data = l ++ [c]) :
    (removeLetter s now).currentText = (⟨l⟩ : String) ∧
    (removeLetter s now).typedSequence =
      (if c.isAlpha then s.typedSequence.dropLast else s.typedSequence) := by
  have hlen : s.currentText.length > 0 := by
    show 0 < s.currentText.data.length
    rw [hdata]
    simp
  unfold removeLetter
  rw [if_pos hlen, hdata, List.getLastD_concat, List.dropLast_concat]
  refine ⟨?_, ?_⟩ <;> split <;> split <;> rfl

theorem removeLetter_empty (s : AppState) (now : Nat)
    (hdata : s.currentText.data = []) : removeLetter s now = s := by
  unfold removeLetter
  rw [if_neg]
  show ¬(0 < s.currentText.data.length)
  rw [hdata]
  simp

theorem isSingleUpperLetter_elim (L : String)
    (h : isSingleUpperLetter L = true) :
    ∃ c, L.data = [c] ∧ 'A' ≤ c ∧ c ≤ 'Z' := by
  rcases hL : L.data with _ | ⟨c, _ | ⟨d, tl⟩⟩ <;>
    simp [isSingleUpperLetter, hL] at h
  exact ⟨c, rfl, h⟩

/-! ### C7: clear is idempotent and resets everything -/

/-- C7: `clearCanvas` is idempotent, and from every prior state it resets
`typedSequence` to `[]`, `currentText` to `""`, the opacity to 1 and the
export buttons to hidden (their initial values), cancelling both pending
timers. -/
theorem clearCanvas_idempotent_resets (s : AppState) :
    clearCanvas (clearCanvas s) = clearCanvas s ∧
    (clearCanvas s).typedSequence = initState.typedSequence ∧
    (clearCanvas s).currentText = initState.currentText ∧
    (clearCanvas s).keyboardOpacity = initState.keyboardOpacity ∧
    (clearCanvas s).showExportButtons = initState.showExportButtons ∧
    (clearCanvas s).fadeTimeout = none ∧
    (clearCanvas s).exportTimeout = none :=
  ⟨rfl, rfl, rfl, rfl, rfl, rfl, rfl⟩

/-! ### C8: confirm (Enter) reveals immediately, mutating nothing -/

/-- C8: the Enter key routes to `confirmTyping`, which from every state
leaves `typedSequence` and `currentText` unchanged, cancels both pending
timers and immediately forces opacity 0.1 with the export controls
visible — no timer is consulted, so this is independent of elapsed
time. -/
theorem confirmTyping_props (s : AppState) (t : Nat) :
    handleKeyPress s "Enter" t = confirmTyping s ∧
    (confirmTyping s).typedSequence = s.typedSequence ∧
    (confirmTyping s).currentText = s.currentText ∧
    (confirmTyping s).fadeTimeout = none ∧
    (confirmTyping s).exportTimeout = none ∧
    (confirmTyping s).keyboardOpacity = 1 / 10 ∧
    (confirmTyping s).showExportButtons = true := by
  refine ⟨?_, rfl, rfl, rfl, rfl, rfl, rfl⟩
  have hk : strToUpper "Enter" = "ENTER" := by decide
  simp only [handleKeyPress, hk]
  rw [if_neg (by decide), if_neg (by decide), if_neg (by decide),
    if_pos trivial]

/-! ### C6: backspace inverts the most recent letter input -/

/-- C6: typing a letter (a single `A`–`Z` key, as delivered by
`handleKeyPress` or the on-screen keys) and then backspacing returns both
`typedSequence` and `currentText` to their values before the letter
input, from every state. -/
theorem addLetter_removeLetter_inverse (s : AppState) (L : String)
    (t1 t2 : Nat) (h : isSingleUpperLetter L = true) :
    (removeLetter (addLetter s L t1) t2).typedSequence = s.typedSequence ∧
    (removeLetter (addLetter s L t1) t2).currentText = s.currentText := by
  obtain ⟨c, hL, hA, hZ⟩ := isSingleUpperLetter_elim L h
  obtain ⟨hUL, hla, hlz⟩ := upper_char_facts c hA hZ
  have halpha : (Char.toLower c).isAlpha = true := lower_char_isAlpha _ hla hlz
  have hSL : strToLower L = (⟨[c.toLower]⟩ : String) := by
    unfold strToLower
    rw [hL]
    rfl
  have hdata : (addLetter s L t1).currentText.data =
      s.currentText.data ++ [c.toLower] := by
    show (s.currentText ++ strToLower L).data = _
    rw [hSL]
    rfl
  obtain ⟨htext, hseq⟩ :=
    removeLetter_concat (addLetter s L t1) t2 _ _ hdata
  constructor
  · rw [hseq, halpha]
    simp only [eq_self_iff_true, if_true]
    exact List.dropLast_concat
  · rw [htext]

/-- C6 witness: a concrete instance, typing `H` after `hi` and
backspacing. -/
theorem addLetter_removeLetter_inverse_witness :
    (removeLetter (addLetter (addLetter initState "H" 0) "I" 1) 2).typedSequence =
      (addLetter initState "H" 0).typedSequence ∧
    (removeLetter (addLetter (addLetter initState "H" 0) "I" 1) 2).currentText =
      (addLetter initState "H" 0).currentText :=
  addLetter_removeLetter_inverse (addLetter initState "H" 0) "I" 1 2 (by decide)

/-! ### Space discipline lemmas -/

theorem noDoubleSpace_cons_cons (a b : Char) (l : List Char) :
    noDoubleSpace (a :: b :: l) =
      (!(decide (a = ' ') && decide (b = ' ')) && noDoubleSpace (b :: l)) :=
  rfl

theorem noDoubleSpace_concat (l : List Char) (c : Char)
    (h : noDoubleSpace l = true)
    (hgood : ¬(l.getLast? = some ' ' ∧ c = ' ')) :
    noDoubleSpace (l ++ [c]) = true := by
  induction l with
  | nil => simp [noDoubleSpace]
  | cons a l ih =>
    cases l with
    | nil =>
      simp only [List.getLast?_singleton] at hgood
      by_cases ha : a = ' '
      · by_cases hc : c = ' '
        · exact absurd ⟨by simp [ha], hc⟩ hgood
        · simp [noDoubleSpace, ha, hc]
      · simp [noDoubleSpace, ha]
    | cons b r =>
      rw [List.cons_append, List.cons_append, noDoubleSpace_cons_cons,
        Bool.and_eq_true]
      rw [noDoubleSpace_cons_cons, Bool.and_eq_true] at h
      refine ⟨h.1, ?_⟩
      rw [← List.cons_append]
      exact ih h.2 (by rwa [List.getLast?_cons_cons] at hgood)

theorem noDoubleSpace_dropLast (l : List Char)
    (h : noDoubleSpace l = true) : noDoubleSpace l.dropLast = true := by
  induction l with
  | nil => exact rfl
  | cons a l ih =>
    cases l with
    | nil => exact rfl
    | cons b r =>
      cases r with
      | nil => exact rfl
      | cons cc rr =>
        rw [noDoubleSpace_cons_cons, Bool.and_eq_true] at h
        have ih' := ih h.2
        show noDoubleSpace (a :: b :: (cc :: rr).dropLast) = true
        rw [noDoubleSpace_cons_cons, Bool.and_eq_true]
        exact ⟨h.1, ih'⟩

theorem headNotSpace_concat (l : List Char) (c : Char)
    (h : headNotSpace l = true) (hc : l = [] → c ≠ ' ') :
    headNotSpace (l ++ [c]) = true := by
  cases l with
  | nil => simp [headNotSpace, hc rfl]
  | cons x xs => simpa [headNotSpace] using h

theorem headNotSpace_dropLast (l : List Char)
    (h : headNotSpace l = true) : headNotSpace l.dropLast = true := by
  cases l with
  | nil => exact rfl
  | cons x xs =>
    cases xs with
    | nil => exact rfl
    | cons y ys => simpa [headNotSpace, List.dropLast] using h

theorem spacesOK_append_char (a : String) (c : Char)
    (h : spacesOK a = true) (hc : c ≠ ' ') :
    spacesOK (a ++ (⟨[c]⟩ : String)) = true := by
  rw [spacesOK, Bool.and_eq_true] at h ⊢
  refine ⟨?_, ?_⟩
  · show headNotSpace (a.data ++ [c]) = true
    exact headNotSpace_concat a.data c h.1 (fun _ => hc)
  · show noDoubleSpace (a.data ++ [c]) = true
    exact noDoubleSpace_concat a.data c h.2 (fun hh => hc hh.2)

theorem spacesOK_append_space (a : String)
    (h : spacesOK a = true) (hne : a.length > 0)
    (hend : endsWithSpace a = false) :
    spacesOK (a ++ " ") = true := by
  rw [spacesOK, Bool.and_eq_true] at h ⊢
  refine ⟨?_, ?_⟩
  · show headNotSpace (a.data ++ [' ']) = true
    refine headNotSpace_concat a.data ' ' h.1 (fun hnil => ?_)
    exact absurd (show a.length = 0 by simp [String.length, hnil]) (by omega)
  · show noDoubleSpace (a.data ++ [' ']) = true
    refine noDoubleSpace_concat a.data ' ' h.2 (fun hh => ?_)
    rw [endsWithSpace] at hend
    rw [hh.1] at hend
    simp at hend

theorem spacesOK_dropLast (a : String) (h : spacesOK a = true) :
    spacesOK (⟨a.data.dropLast⟩ : String) = true := by
  rw [spacesOK, Bool.and_eq_true] at h ⊢
  exact ⟨headNotSpace_dropLast a.data h.1, noDoubleSpace_dropLast a.data h.2⟩

/-! ### Reachable-state invariant -/

theorem seqOfText_append_char (t : String) (c : Char) (hc : c ≠ ' ') :
    seqOfText (t ++ (⟨[c]⟩ : String)) =
      seqOfText t ++ [(⟨[c.toUpper]⟩ : String)] := by
  unfold seqOfText
  show ((t.data ++ [c]).filter _).map _ = _
  rw [List.filter_append]
  simp [hc]

theorem seqOfText_append_space (t : String) :
    seqOfText (t ++ " ") = seqOfText t := by
  unfold seqOfText
  show ((t.data ++ [' ']).filter _).map _ = _
  rw [List.filter_append]
  simp

theorem seqOfText_mk_concat (l : List Char) (c : Char) :
    seqOfText (⟨l ++ [c]⟩ : String) =
      seqOfText (⟨l⟩ : String) ++
        (if c = ' ' then [] else [(⟨[c.toUpper]⟩ : String)]) := by
  unfold seqOfText
  show ((l ++ [c]).filter _).map _ = _
  rw [List.filter_append]
  by_cases hc : c = ' ' <;> simp [hc]

theorem textWF_append_char (t : String) (c : Char) (h : textWF t)
    (hc : c = ' ' ∨ ('a' ≤ c ∧ c ≤ 'z')) :
    textWF (t ++ (⟨[c]⟩ : String)) := by
  intro x hx
  rcases List.mem_append.mp hx with h1 | h1
  · exact h x h1
  · rw [List.mem_singleton] at h1
    subst h1
    exact hc

theorem textWF_dropLast (t : String) (h : textWF t) :
    textWF (⟨t.data.dropLast⟩ : String) :=
  fun x hx => h x ((List.dropLast_sublist t.data).subset hx)

theorem inv_addLetter (s : AppState) (key : String) (t : Nat)
    (hk : isSingleUpperLetter key = true) (h : StateInv s) :
    StateInv (addLetter s key t) := by
  obtain ⟨c, hK, hA, hZ⟩ := isSingleUpperLetter_elim key hk
  obtain ⟨hUL, hla, hlz⟩ := upper_char_facts c hA hZ
  have hkey : key = (⟨[c]⟩ : String) := congrArg String.mk hK
  have hSL : strToLower key = (⟨[c.toLower]⟩ : String) := by
    rw [hkey]
    rfl
  obtain ⟨hwf, hseq, hsp⟩ := h
  refine ⟨?_, ?_, ?_⟩
  · show textWF (s.currentText ++ strToLower key)
    rw [hSL]
    exact textWF_append_char _ _ hwf (Or.inr ⟨hla, hlz⟩)
  · show s.typedSequence ++ [key] = seqOfText (s.currentText ++ strToLower key)
    rw [hSL, seqOfText_append_char _ _ (lower_char_ne_space _ hla hlz),
      ← hseq, hUL, ← hkey]
  · show spacesOK (s.currentText ++ strToLower key) = true
    rw [hSL]
    exact spacesOK_append_char _ _ hsp (lower_char_ne_space _ hla hlz)

theorem inv_addSpace (s : AppState) (t : Nat) (h : StateInv s) :
    StateInv (addSpace s t) := by
  obtain ⟨hwf, hseq, hsp⟩ := h
  unfold addSpace
  split
  case isTrue hcond =>
    rw [Bool.and_eq_true, decide_eq_true_eq, Bool.not_eq_true'] at hcond
    refine ⟨?_, ?_, ?_⟩
    · show textWF (s.currentText ++ " ")
      exact textWF_append_char _ _ hwf (Or.inl rfl)
    · show s.typedSequence = seqOfText (s.currentText ++ " ")
      rw [seqOfText_append_space]
      exact hseq
    · exact spacesOK_append_space _ hsp hcond.1 hcond.2
  case isFalse hcond =>
    exact ⟨hwf, hseq, hsp⟩

theorem inv_removeLetter (s : AppState) (t : Nat) (h : StateInv s) :
    StateInv (removeLetter s t) := by
  obtain ⟨hwf, hseq, hsp⟩ := h
  by_cases hlen : s.currentText.length > 0
  · have hne : s.currentText.data ≠ [] :=
      List.ne_nil_of_length_pos hlen
    have hsplit : s.currentText.data =
        s.currentText.data.dropLast ++ [s.currentText.data.getLast hne] :=
      (List.dropLast_concat_getLast hne).symm
    obtain ⟨htext, hseq'⟩ := removeLetter_concat s t _ _ hsplit
    have hmem : s.currentText.data.getLast hne ∈ s.currentText.data :=
      List.getLast_mem hne
    have hstr : s.currentText =
        (⟨s.currentText.data.dropLast ++ [s.currentText.data.getLast hne]⟩ :
          String) := congrArg String.mk hsplit
    refine ⟨?_, ?_, ?_⟩
    · rw [htext]
      exact textWF_dropLast _ hwf
    · rw [htext, hseq']
      rw [hstr, seqOfText_mk_concat] at hseq
      rcases hwf _ hmem with hc | hc
      · rw [hc] at hseq ⊢
        simp only [if_pos rfl] at hseq
        rw [if_neg (by decide : ¬(' '.isAlpha = true))]
        simpa using hseq
      · rw [if_pos (lower_char_isAlpha _ hc.1 hc.2)]
        rw [if_neg (lower_char_ne_space _ hc.1 hc.2)] at hseq
        rw [hseq, List.dropLast_concat]
    · rw [htext]
      exact spacesOK_dropLast _ hsp
  · have hd : s.currentText.data = [] := by
      have h0 : ¬(0 < s.currentText.data.length) := hlen
      exact List.eq_nil_of_length_eq_zero (by omega)
    rw [removeLetter_empty s t hd]
    exact ⟨hwf, hseq, hsp⟩

theorem inv_handleKeyPress (s : AppState) (k : String) (t : Nat)
    (h : StateInv s) : StateInv (handleKeyPress s k t) := by
  simp only [handleKeyPress]
  split_ifs with h1 h2 h3 h4
  · exact inv_addLetter s _ t h1 h
  · exact inv_addSpace s t h
  · exact inv_removeLetter s t h
  · exact h
  · exact h

theorem inv_clearCanvas (s : AppState) : StateInv (clearCanvas s) :=
  ⟨fun c hc => absurd hc (List.not_mem_nil c), rfl, rfl⟩

theorem inv_applyEvent (s : AppState) (e : UserEvent) (h : StateInv s) :
    StateInv (applyEvent s e) := by
  cases e with
  | keydown k t => exact inv_handleKeyPress s k t h
  | clear => exact inv_clearCanvas s

theorem inv_foldl (evs : List UserEvent) (s : AppState) (h : StateInv s) :
    StateInv (evs.foldl applyEvent s) := by
  induction evs generalizing s with
  | nil => exact h
  | cons e evs ih => exact ih _ (inv_applyEvent s e h)

theorem inv_initState : StateInv initState :=
  ⟨fun c hc => absurd hc (List.not_mem_nil c), rfl, rfl⟩

theorem inv_run (evs : List UserEvent) : StateInv (runEvents evs) :=
  inv_foldl evs initState inv_initState

/-! ### C9: space discipline -/

theorem addSpace_accept (s : AppState) (t : Nat)
    (h1 : s.currentText.length > 0)
    (h2 : endsWithSpace s.currentText = false) :
    addSpace s t = startFadeTimer
      { s with currentText := s.currentText ++ " ", fadeTimeout := none,
               exportTimeout := none, keyboardOpacity := 1,
               showExportButtons := false } t := by
  unfold addSpace
  rw [if_pos]
  rw [Bool.and_eq_true, decide_eq_true_eq, Bool.not_eq_true']
  exact ⟨h1, h2⟩

theorem addSpace_reject (s : AppState) (t : Nat)
    (h : ¬(s.currentText.length > 0 ∧ endsWithSpace s.currentText = false)) :
    addSpace s t = s := by
  unfold addSpace
  rw [if_neg]
  rw [Bool.and_eq_true, decide_eq_true_eq, Bool.not_eq_true']
  exact h

theorem endsWithSpace_append (a : String) :
    endsWithSpace (a ++ " ") = true := by
  unfold endsWithSpace
  rw [show (a ++ " ").data = a.data ++ [' '] from rfl, List.getLast?_concat]
  exact decide_eq_true rfl

/-- C9: a space appends exactly one space to `currentText` (and nothing
to `typedSequence`) precisely when the text is non-empty and does not
already end with a space, and is a no-op otherwise; consequently a second
space in a row leaves `currentText` unchanged, and in every state
reachable from the initial state by key events and clears the display
text has no leading and no consecutive spaces. -/
theorem addSpace_props (s : AppState) (t1 t2 : Nat) :
    (s.currentText.length > 0 ∧ endsWithSpace s.currentText = false →
      (addSpace s t1).currentText = s.currentText ++ " " ∧
      (addSpace s t1).typedSequence = s.typedSequence) ∧
    (¬(s.currentText.length > 0 ∧ endsWithSpace s.currentText = false) →
      addSpace s t1 = s) ∧
    (addSpace (addSpace s t1) t2).currentText = (addSpace s t1).currentText ∧
    (∀ evs : List UserEvent, spacesOK (runEvents evs).currentText = true) := by
  refine ⟨?_, ?_, ?_, ?_⟩
  · intro hc
    rw [addSpace_accept s t1 hc.1 hc.2]
    exact ⟨rfl, rfl⟩
  · exact addSpace_reject s t1
  · by_cases hc : s.currentText.length > 0 ∧ endsWithSpace s.currentText = false
    · rw [addSpace_accept s t1 hc.1 hc.2]
      rw [addSpace_reject _ t2 ?_]
      intro hcon
      have := hcon.2
      rw [show (startFadeTimer
          { s with currentText := s.currentText ++ " ", fadeTimeout := none,
                   exportTimeout := none, keyboardOpacity := 1,
                   showExportButtons := false } t1).currentText =
            s.currentText ++ " " from rfl] at this
      rw [endsWithSpace_append] at this
      cases this
    · rw [addSpace_reject s t1 hc, addSpace_reject s t2 hc]
  · intro evs
    exact (inv_run evs).2.2

/-- C9 witness: with display text `"a"`, a space is appended and the
sequence is untouched. -/
theorem addSpace_props_witness :
    (addSpace (addLetter initState "A" 0) 5).currentText =
      (addLetter initState "A" 0).currentText ++ " " ∧
    (addSpace (addLetter initState "A" 0) 5).typedSequence =
      (addLetter initState "A" 0).typedSequence :=
  (addSpace_props (addLetter initState "A" 0) 5 6).1 ⟨by decide, by decide⟩

/-! ### C10: the sequence is exactly the uppercased non-space text -/

/-- C10: after every sequence of key events (letters, spaces, backspaces,
enters, ignored keys) and clear operations from the initial state,
`typedSequence` is exactly the ordered list of non-space characters of
`currentText` canonicalized to uppercase; in particular its length equals
the number of non-space characters of `currentText`. -/
theorem typedSequence_eq_seqOfText (evs : List UserEvent) :
    (runEvents evs).typedSequence = seqOfText (runEvents evs).currentText ∧
    (runEvents evs).typedSequence.length =
      ((runEvents evs).currentText.data.filter (fun c => c ≠ ' ')).length := by
  have h := inv_run evs
  refine ⟨h.2.1, ?_⟩
  rw [h.2.1]
  unfold seqOfText
  rw [List.length_map]

/-! ### C1: letters replay to an uppercased sequence and lowercased text -/

theorem strToLower_strToUpper (k : String) :
    strToLower (strToUpper k) = strToLower k := by
  unfold strToLower strToUpper
  refine congrArg String.mk ?_
  rw [List.map_map]
  have hfun : Char.toLower ∘ Char.toUpper = Char.toLower :=
    funext toLower_toUpper_eq_toLower
  rw [hfun]

theorem replayKeys_letters (evs : List (String × Nat)) (s : AppState)
    (h : ∀ e ∈ evs, isSingleUpperLetter (strToUpper e.1) = true) :
    (replayKeys s evs).typedSequence =
      s.typedSequence ++ evs.map (fun e => strToUpper e.1) ∧
    (replayKeys s evs).currentText =
      s.currentText ++ String.join (evs.map (fun e => strToLower e.1)) := by
  induction evs generalizing s with
  | nil =>
    refine ⟨by simp [replayKeys], ?_⟩
    show s.currentText = s.currentText ++ String.join []
    exact (congrArg String.mk (List.append_nil _)).symm
  | cons e evs ih =>
    have hstep : handleKeyPress s e.1 e.2 = addLetter s (strToUpper e.1) e.2 := by
      simp only [handleKeyPress]
      rw [if_pos (h e (List.mem_cons_self e evs))]
    have hrest := ih (addLetter s (strToUpper e.1) e.2)
      (fun x hx => h x (List.mem_cons_of_mem e hx))
    have hfold : replayKeys s (e :: evs) =
        replayKeys (addLetter s (strToUpper e.1) e.2) evs := by
      show replayKeys (handleKeyPress s e.1 e.2) evs = _
      rw [hstep]
    constructor
    · rw [hfold, hrest.1]
      show s.typedSequence ++ [strToUpper e.1] ++ _ = _
      rw [List.append_assoc]
      rfl
    · rw [hfold, hrest.2]
      show s.currentText ++ strToLower (strToUpper e.1) ++ _ = _
      rw [strToLower_strToUpper, str_append_assoc, ← str_join_cons]
      rfl

/-- C1: replaying any list of letter key events (n ≥ 2, any case, no
intervening clear) from the initial state leaves `typedSequence` equal to
the uppercased letters in order and `currentText` equal to their
lowercase concatenation, with no spaces inserted. -/
theorem letter_replay_canonical (evs : List (String × Nat))
    (_hlen : 2 ≤ evs.length)
    (h : ∀ e ∈ evs, isSingleUpperLetter (strToUpper e.1) = true) :
    (replayKeys initState evs).typedSequence =
      evs.map (fun e => strToUpper e.1) ∧
    (replayKeys initState evs).currentText =
      String.join (evs.map (fun e => strToLower e.1)) := by
  obtain ⟨h1, h2⟩ := replayKeys_letters evs initState h
  exact ⟨h1, h2⟩

/-- C1 witness: the two-letter replay `h`, `I` yields sequence
`["H", "I"]` and display text `"hi"`. -/
theorem letter_replay_canonical_witness :
    (replayKeys initState [("h", 0), ("I", 3)]).typedSequence =
      [("h", 0), ("I", 3)].map (fun e => strToUpper e.1) ∧
    (replayKeys initState [("h", 0), ("I", 3)]).currentText =
      String.join ([("h", 0), ("I", 3)].map (fun e => strToLower e.1)) :=
  letter_replay_canonical [("h", 0), ("I", 3)] (by decide) (by decide)

/-! ### C5: the fade/reveal timeline -/

theorem armed_fadePhases (s : AppState)
    (hh : s.isHovering = false) (hop : s.keyboardOpacity = 1)
    (hsb : s.showExportButtons = false) (hft : s.fadeTimeout = some 2000)
    (het : s.exportTimeout = none) (t : Nat) : fadePhases s t := by
  obtain ⟨seq, text, op, sb, hov, ft, et⟩ := s
  simp only at hh hop hsb hft het
  subst hh hop hsb hft het
  refine ⟨?_, ?_, ?_⟩
  · intro ht
    unfold fadeObs advanceTo
    simp only
    rw [if_neg (by omega : ¬(2000 ≤ t))]
  · intro ht1 ht2
    unfold fadeObs advanceTo
    simp only
    rw [if_pos (by omega : 2000 ≤ t)]
    unfold fadeTimerFire
    rw [if_neg (by simp : ¬(false = true))]
    simp only
    rw [if_neg (by omega : ¬(2000 + 1000 ≤ t))]
  · intro ht
    unfold fadeObs advanceTo
    simp only
    rw [if_pos (by omega : 2000 ≤ t)]
    unfold fadeTimerFire
    rw [if_neg (by simp : ¬(false = true))]
    simp only
    rw [if_pos (by omega : 2000 + 1000 ≤ t)]
    unfold exportTimerFire
    rw [if_pos ⟨rfl, rfl⟩]

theorem removeLetter_restart (s : AppState) (now : Nat)
    (hrem : s.currentText.data.dropLast ≠ []) :
    removeLetter s now = startFadeTimer
      { s with
        currentText := (⟨s.currentText.data.dropLast⟩ : String),
        typedSequence :=
          if (s.currentText.data.getLastD ' ').isAlpha
          then s.typedSequence.dropLast else s.typedSequence,
        fadeTimeout := none,
        exportTimeout := none,
        keyboardOpacity := 1,
        showExportButtons := false } now := by
  have hne : s.currentText.data ≠ [] := by
    intro hn
    rw [hn] at hrem
    exact hrem rfl
  have hlen : s.currentText.length > 0 := by
    show 0 < s.currentText.data.length
    exact List.length_pos.mpr hne
  unfold removeLetter
  rw [if_pos hlen, if_pos]
  show 0 < s.currentText.data.dropLast.length
  exact List.length_pos.mpr hrem

theorem removeLetter_to_empty (s : AppState) (now : Nat)
    (hlen1 : s.currentText.data.length = 1) :
    removeLetter s now =
      { s with
        currentText := (⟨s.currentText.data.dropLast⟩ : String),
        typedSequence :=
          if (s.currentText.data.getLastD ' ').isAlpha
          then s.typedSequence.dropLast else s.typedSequence,
        fadeTimeout := none,
        exportTimeout := none,
        keyboardOpacity := 1,
        showExportButtons := false } := by
  have hlen : s.currentText.length > 0 := by
    show 0 < s.currentText.data.length
    omega
  unfold removeLetter
  rw [if_pos hlen, if_neg]
  show ¬(0 < s.currentText.data.dropLast.length)
  rw [List.length_dropLast]
  omega

/-- C5 counterexample: a backspace that empties the display text is a
mutating input event performed while not hovering, yet at `t = 2500` the
machine still shows opacity 1 with export hidden (`Active`), not the
`Fading` observation (0.3, hidden) the claim requires on
`[2000, 3000)` — no fade timer is started when the text becomes empty. -/
theorem backspace_empty_no_fade_counterexample :
    fadeObs (removeLetter (addLetter initState "A" 0) 0) 2500 = (1, false) ∧
    ((1 : ℚ), false) ≠ ((3 / 10 : ℚ), false) := by
  constructor
  · rfl
  · intro hcon
    have h1 : (1 : ℚ) = 3 / 10 := congrArg Prod.fst hcon
    norm_num at h1

/-- C5 (amended): after a mutating input event at `t = 0` with no hover
and no further input, the machine is `Active` (opacity 1, export hidden)
on `[0, 2000)`, `Fading` (opacity 0.3, export hidden) on `[2000, 3000)`
and `Revealed` (opacity 0.3, export visible) from 3000 — for a letter,
an accepted space, and a backspace that leaves text behind.  The one
exception forced by the counterexample: a backspace that empties the
display text resets the machine to `Active` but starts no fade timer, so
the observation stays (1, hidden) for all `t`. -/
theorem mutating_event_fade_timeline (s : AppState) (t : Nat)
    (hh : s.isHovering = false) :
    (∀ L, fadePhases (addLetter s L 0) t) ∧
    (s.currentText.length > 0 → endsWithSpace s.currentText = false →
      fadePhases (addSpace s 0) t) ∧
    (s.currentText.data.dropLast ≠ [] →
      fadePhases (removeLetter s 0) t) ∧
    (s.currentText.data.length = 1 →
      fadeObs (removeLetter s 0) t = (1, false)) := by
  refine ⟨?_, ?_, ?_, ?_⟩
  · intro L
    refine armed_fadePhases _ ?_ rfl rfl rfl rfl t
    exact hh
  · intro h1 h2
    rw [addSpace_accept s 0 h1 h2]
    refine armed_fadePhases _ ?_ rfl rfl rfl rfl t
    exact hh
  · intro hrem
    rw [removeLetter_restart s 0 hrem]
    refine armed_fadePhases _ ?_ rfl rfl rfl rfl t
    exact hh
  · intro hlen1
    rw [removeLetter_to_empty s 0 hlen1]
    rfl

/-- C5 witness: after typing `A` at `t = 0`, the observation at
`t = 2500` is `Fading`: opacity 0.3 with export hidden. -/
theorem mutating_event_fade_timeline_witness :
    fadeObs (addLetter initState "A" 0) 2500 = (3 / 10, false) := by
  have h := (mutating_event_fade_timeline initState 2500 rfl).1 "A"
  unfold fadePhases at h
  exact h.2.1 (by omega) (by omega)

/-! ### C2: the polyline skips unresolved pairs -/

theorem svgPathRest_eq (pos : String → Option KeyPosition) (a : String)
    (rest : List String) :
    svgPathRest pos a rest =
      (consecResolved pos (a :: rest)).map
        (fun pq => SvgPathCmd.L pq.2.x pq.2.y) := by
  induction rest generalizing a with
  | nil => rfl
  | cons b r ih =>
    simp only [svgPathRest, consecResolved, List.map_append, ih]
    congr 1
    cases pos a <;> cases pos b <;> rfl

theorem svgPathData_shape (pos : String → Option KeyPosition)
    (seq : List String) :
    svgPathData pos seq = headMove pos seq ++
      (consecResolved pos seq).map
        (fun pq => SvgPathCmd.L pq.2.x pq.2.y) := by
  cases seq with
  | nil => rfl
  | cons a rest =>
    cases rest with
    | nil => rfl
    | cons b r =>
      simp only [svgPathData, headMove, consecResolved, List.map_append,
        svgPathRest_eq pos b r]
      cases pos a <;> cases pos b <;> simp

theorem segOpsRest_eq (pos : String → Option KeyPosition) (a : String)
    (rest : List String) :
    segOpsRest pos a rest = (svgPathRest pos a rest).map cmdToOp := by
  induction rest generalizing a with
  | nil => rfl
  | cons b r ih =>
    simp only [segOpsRest, svgPathRest, List.map_append, ih]
    congr 1
    cases pos a <;> cases pos b <;> rfl

theorem segOps_eq_svg (pos : String → Option KeyPosition)
    (seq : List String) :
    segOps pos seq = (svgPathData pos seq).map cmdToOp := by
  cases seq with
  | nil => rfl
  | cons a rest =>
    cases rest with
    | nil => rfl
    | cons b r =>
      simp only [segOps, svgPathData, List.map_append, segOpsRest_eq pos b r]
      congr 1
      cases pos a <;> cases pos b <;> rfl

/-- C2 counterexample: with sequence `[A, B, C]` and only `B`, `C`
resolved, the emitted path is just `L (1, 1)`: it does not begin with a
move-to at the first resolvable position `(0, 0)` — the spec-worded path
(`specPathData`) would be `M (0, 0), L (1, 1)`.  The `i = 0` move-to is
only emitted when the first pair fully resolves. -/
theorem path_first_resolvable_counterexample :
    svgPathData posBC ["A", "B", "C"] = [SvgPathCmd.L 1 1] ∧
    specPathData posBC ["A", "B", "C"] =
      [SvgPathCmd.M 0 0, SvgPathCmd.L 1 1] ∧
    svgPathData posBC ["A", "B", "C"] ≠ specPathData posBC ["A", "B", "C"] := by
  refine ⟨rfl, rfl, ?_⟩
  intro hcon
  rw [show svgPathData posBC ["A", "B", "C"] = [SvgPathCmd.L 1 1] from rfl,
    show specPathData posBC ["A", "B", "C"] =
      [SvgPathCmd.M 0 0, SvgPathCmd.L 1 1] from rfl] at hcon
  simp at hcon

/-- C2 (amended): both the live redraw and the vector export stroke the
polyline segment-by-segment, emitting a line-to exactly for every
consecutive pair whose two endpoints resolve in the registry (skipping
the others without aborting the rest), and a single move-to — at the
position of `sequence[0]` — exactly when the first pair fully resolves;
when the first pair is skipped no move-to is emitted at all.  The canvas
calls of `redrawLines` and the path data of `exportAsSVG` agree
command-for-command. -/
theorem redraw_path_shape (pos : String → Option KeyPosition)
    (seq : List String) :
    svgPathData pos seq = headMove pos seq ++
      (consecResolved pos seq).map
        (fun pq => SvgPathCmd.L pq.2.x pq.2.y) ∧
    segOps pos seq = (svgPathData pos seq).map cmdToOp :=
  ⟨svgPathData_shape pos seq, segOps_eq_svg pos seq⟩

/-! ### C3: behavior when the surface or context is unavailable -/

/-- C3 counterexample: with the canvas (and hence its context)
unavailable but two letters typed, the vector export still produces a
file — `exportAsSVG` checks only the sequence length, contradicting the
claim that every draw/export operation silently returns. -/
theorem export_unavailable_counterexample :
    (exportAsSVG none ["A", "B"] posAB defaultLines "ab").isSome = true :=
  rfl

/-- C3 (amended): the live redraw silently returns when the drawing
surface or its context is unavailable, and the raster export silently
returns when the surface is unavailable; the vector export, however, is
a no-op exactly when the sequence has fewer than two entries — it
ignores surface availability (recording absent dimensions), and the
raster export ignores the context. -/
theorem unavailable_surface_guards (ctx : Option Unit)
    (canvas : Option Canvas) (seq : List String)
    (pos : String → Option KeyPosition) (lines : LineSettings)
    (text : String) :
    (ctx = none ∨ canvas = none →
      redrawLines ctx canvas seq pos lines = none) ∧
    (canvas = none → exportAsPNG canvas text = none) ∧
    (exportAsSVG canvas seq pos lines text = none ↔ seq.length < 2) := by
  refine ⟨?_, ?_, ?_⟩
  · intro h
    rcases h with h | h <;> subst h
    · cases canvas <;> rfl
    · cases ctx <;> rfl
  · intro h
    subst h
    rfl
  · unfold exportAsSVG
    constructor
    · intro h
      by_cases hc : seq.length < 2
      · exact hc
      · rw [if_neg hc] at h
        cases h
    · intro h
      rw [if_pos h]

/-- C3 witness: with no surface at all, redraw and raster export return
nothing, while vector export is governed solely by the sequence
length. -/
theorem unavailable_surface_guards_witness :
    redrawLines none none ["A", "B"] posAB defaultLines = none ∧
    exportAsPNG none "ab" = none ∧
    (exportAsSVG none ["A", "B"] posAB defaultLines "ab" = none ↔
      (["A", "B"] : List String).length < 2) := by
  have h := unavailable_surface_guards none none ["A", "B"] posAB
    defaultLines "ab"
  exact ⟨h.1 (Or.inl rfl), h.2.1 rfl, h.2.2⟩

/-! ### C4: vector export counts -/

theorem countLineCmds_append (l1 l2 : List SvgPathCmd) :
    countLineCmds (l1 ++ l2) = countLineCmds l1 + countLineCmds l2 :=
  List.countP_append _ _ _

theorem svgPathRest_count (pos : String → Option KeyPosition) (a : String)
    (rest : List String) (ha : (pos a).isSome = true)
    (h : ∀ k ∈ rest, (pos k).isSome = true) :
    countLineCmds (svgPathRest pos a rest) = rest.length := by
  induction rest generalizing a with
  | nil => rfl
  | cons b r ih =>
    obtain ⟨pa, hpa⟩ := Option.isSome_iff_exists.mp ha
    obtain ⟨pb, hpb⟩ := Option.isSome_iff_exists.mp
      (h b (List.mem_cons_self b r))
    have hrest := ih b (h b (List.mem_cons_self b r))
      (fun k hk => h k (List.mem_cons_of_mem b hk))
    simp only [svgPathRest, hpa, hpb, countLineCmds_append, hrest]
    rw [show countLineCmds [SvgPathCmd.L pb.x pb.y] = 1 from rfl,
      List.length_cons]
    omega

theorem svgPathData_count (pos : String → Option KeyPosition)
    (seq : List String) (hlen : 2 ≤ seq.length)
    (h : ∀ k ∈ seq, (pos k).isSome = true) :
    countLineCmds (svgPathData pos seq) = seq.length - 1 := by
  cases seq with
  | nil => cases hlen
  | cons a rest =>
    cases rest with
    | nil =>
      exact absurd hlen (by simp)
    | cons b r =>
      obtain ⟨pa, hpa⟩ := Option.isSome_iff_exists.mp
        (h a (List.mem_cons_self a _))
      obtain ⟨pb, hpb⟩ := Option.isSome_iff_exists.mp
        (h b (List.mem_cons_of_mem a (List.mem_cons_self b r)))
      have hrest := svgPathRest_count pos b r
        (by rw [hpb]; rfl)
        (fun k hk => h k (List.mem_cons_of_mem a (List.mem_cons_of_mem b hk)))
      simp only [svgPathData, hpa, hpb, countLineCmds_append, hrest]
      rw [show countLineCmds
          [SvgPathCmd.M pa.x pa.y, SvgPathCmd.L pb.x pb.y] = 1 from rfl,
        List.length_cons, List.length_cons]
      omega

theorem filterMap_length_all_some {α β : Type} (f : α → Option β)
    (l : List α) (h : ∀ x ∈ l, (f x).isSome = true) :
    (l.filterMap f).length = l.length := by
  induction l with
  | nil => rfl
  | cons a l ih =>
    obtain ⟨b, hb⟩ := Option.isSome_iff_exists.mp
      (h a (List.mem_cons_self a l))
    rw [List.filterMap_cons, hb, List.length_cons,
      ih (fun x hx => h x (List.mem_cons_of_mem a hx)), List.length_cons]

/-- C4: the vector export is a no-op producing no file whenever the
sequence has fewer than two entries; and for a sequence of length n ≥ 2
whose letters all resolve in the registry, the produced document has
exactly n - 1 line commands in its path and exactly n marker circles,
each of radius `dotSize`. -/
theorem svg_export_counts (canvas : Option Canvas) (seq : List String)
    (pos : String → Option KeyPosition) (lines : LineSettings)
    (text : String) :
    (seq.length < 2 → exportAsSVG canvas seq pos lines text = none) ∧
    (2 ≤ seq.length → (∀ k ∈ seq, (pos k).isSome = true) →
      ∃ doc, exportAsSVG canvas seq pos lines text = some doc ∧
        countLineCmds doc.pathD = seq.length - 1 ∧
        doc.circles.length = seq.length ∧
        ∀ circ ∈ doc.circles, circ.r = lines.dotSize) := by
  constructor
  · intro h
    unfold exportAsSVG
    rw [if_pos h]
  · intro hlen h
    unfold exportAsSVG
    rw [if_neg (by omega)]
    refine ⟨_, rfl, ?_, ?_, ?_⟩
    · exact svgPathData_count pos seq hlen h
    · refine filterMap_length_all_some _ seq (fun x hx => ?_)
      obtain ⟨p, hp⟩ := Option.isSome_iff_exists.mp (h x hx)
      rw [hp]
      rfl
    · intro circ hcirc
      obtain ⟨a, _, heq⟩ := List.mem_filterMap.mp hcirc
      obtain ⟨p, _, hc⟩ := Option.map_eq_some'.mp heq
      rw [← hc]

/-- C4 witness: the two-letter sequence `[A, B]` with both positions
resolved exports one line command and two circles of the default dot
size. -/
theorem svg_export_counts_witness :
    ∃ doc, exportAsSVG (some { width := 800, height := 600 })
        ["A", "B"] posAB defaultLines "ab" = some doc ∧
      countLineCmds doc.pathD = (["A", "B"] : List String).length - 1 ∧
      doc.circles.length = (["A", "B"] : List String).length ∧
      ∀ circ ∈ doc.circles, circ.r = defaultLines.dotSize :=
  (svg_export_counts (some { width := 800, height := 600 })
    ["A", "B"] posAB defaultLines "ab").2 (by decide) (by decide)

end SignatureShape
